import Mathlib

/-
Formal model of the git-nexus backend services.

Each definition is a shallow embedding of the corresponding Python
function from the repository, translated clause by clause:

* `GitHubService.updateRateLimit`  ~ backend/services/github_service.py,
  `GitHubService._update_rate_limit` (the single-row rate-limit upsert
  with the authenticated non-downgrade guard);
* `TokenService.getEffectiveToken` ~ backend/services/token_service.py,
  `get_effective_token` (request > env > db > none resolution);
* the Fernet primitive itself is an external library, so it appears as
  an abstract decryption oracle `fernetDec : String → Option String`,
  where `none` stands for the library raising; `Crypto.cryptoDecrypt`
  embeds `CryptoManager.decrypt` from backend/utils/crypto.py, which
  catches that exception and returns the empty string.

Database state is modelled as explicit lists of rows, and the SQLAlchemy
`scalar_one_or_none` lookup as `List.find?` (the looked-up keys are
unique in the store).
-/

namespace GitNexus

/-- Python `str.strip()`: drop whitespace from both ends.  (Executable
counterpart of `String.trim`, which does not reduce definitionally.) -/
def pyStrip (s : String) : String :=
  ⟨((s.data.dropWhile Char.isWhitespace).reverse.dropWhile Char.isWhitespace).reverse⟩

/-- Substring test on character lists (Python `pat in s`). -/
def isSubstrOf (pat : List Char) : List Char → Bool
  | [] => pat.isEmpty
  | c :: rest => pat.isPrefixOf (c :: rest) || isSubstrOf pat rest

/-- Python `pat in s` on strings. -/
def containsSub (s pat : String) : Bool := isSubstrOf pat.data s.data

/-- Python `s.startswith(pre)`. -/
def strStartsWith (s pre : String) : Bool := pre.data.isPrefixOf s.data

/-- Split a character list on a separator (Python `str.split(sep)`). -/
def splitOnChar (sep : Char) : List Char → List (List Char)
  | [] => [[]]
  | c :: rest =>
      let r := splitOnChar sep rest
      if c = sep then [] :: r
      else
        match r with
        | h :: t => (c :: h) :: t
        | [] => [[c]]

/-- Python `s.split(sep)` for a one-character separator. -/
def splitStr (sep : Char) (s : String) : List String :=
  (splitOnChar sep s.data).map (fun cs => ⟨cs⟩)

/-- Python `s.lower()` (executable counterpart of `String.toLower`). -/
def pyLower (s : String) : String := ⟨s.data.map Char.toLower⟩

/-! ## Rate-limit tracker (backend/services/github_service.py) -/

namespace GitHubService

/-- A row of the singleton `api_status` table (backend/models/github.py). -/
structure ApiStatus where
  limit : Nat
  remaining : Nat
  reset_time : Nat
  token_source : String
  deriving DecidableEq, Repr

/-- The three `token_source` values that count as authenticated in
`_update_rate_limit`. -/
def authSources : List String := ["env", "db", "authed"]

/-- `new_source = token_source if token_source else ("authed" if limit > 500 else "none")`.
`none` models Python `None`; `Option.getD "" ≠ ""` is Python truthiness
for an optional string. -/
def newSource (tokenSource : Option String) (limit : Nat) : String :=
  if tokenSource.getD "" ≠ "" then tokenSource.getD ""
  else if 500 < limit then "authed" else "none"

/-- The body of `GitHubService._update_rate_limit` acting on the single
stored `ApiStatus` row (`none` = table empty).  The observation is the
parsed `x-ratelimit-*` headers plus the attributed token source. -/
def updateRateLimit (tokenSource : Option String) (limit remaining reset : Nat)
    (st : Option ApiStatus) : Option ApiStatus :=
  let ns := newSource tokenSource limit
  match st with
  | some status =>
      if limit < status.limit ∧ status.token_source ∈ authSources ∧ ns = "none" then
        some status
      else
        some ⟨limit, remaining, reset, ns⟩
  | none => some ⟨limit, remaining, reset, ns⟩

end GitHubService

/-! ## Crypto manager (backend/utils/crypto.py) -/

namespace Crypto

/-- `CryptoManager.decrypt`: empty ciphertext maps to the empty string;
otherwise the Fernet library is consulted and any exception (modelled by
the oracle returning `none`) is swallowed into the empty string. -/
def cryptoDecrypt (fernetDec : String → Option String) (ciphertext : String) : String :=
  if ciphertext = "" then "" else (fernetDec ciphertext).getD ""

/-- `CryptoManager.encrypt`: empty plaintext maps to the empty string,
otherwise the Fernet library encrypts. -/
def cryptoEncrypt (fernetEnc : String → String) (plaintext : String) : String :=
  if plaintext = "" then "" else fernetEnc plaintext

end Crypto

/-! ## Token resolver (backend/services/token_service.py) -/

namespace TokenService

/-- A row of the `app_config` key/value table (backend/models/config.py). -/
structure AppConfigRow where
  key : String
  value : String
  deriving DecidableEq, Repr

/-- `get_effective_token(db, request_token)`.

* `githubTokenEnv` is `settings.github_token` (the `.env` value);
* `db` is the `app_config` table; the `select ... where key = "github_token"`
  with `scalar_one_or_none` becomes `List.find?` (the key is unique);
* `fernetDec` is the Fernet decryption oracle threaded to
  `Crypto.cryptoDecrypt`;
* `requestToken` is the request-scoped token.

Returns the `(token, source)` pair. -/
def getEffectiveToken (githubTokenEnv : Option String) (db : List AppConfigRow)
    (fernetDec : String → Option String) (requestToken : Option String) :
    Option String × String :=
  let rt := requestToken.getD ""
  if rt ≠ "" ∧ pyStrip rt ≠ "" then (some (pyStrip rt), "request")
  else if githubTokenEnv.getD "" ≠ "" then (some (githubTokenEnv.getD ""), "env")
  else
    match db.find? (fun c => c.key == "github_token") with
    | some config =>
        if config.value ≠ "" then
          let decrypted := Crypto.cryptoDecrypt fernetDec config.value
          if decrypted ≠ "" then (some decrypted, "db") else (none, "none")
        else (none, "none")
    | none => (none, "none")

end TokenService

/-! ## Git worktree manager (backend/services/git_service.py) -/

namespace GitService

/-- `Path.resolve()` normalization on a component list: empty and `.`
segments vanish, `..` pops the previous component (the directory is
taken rooted, so popping at the top stays at the top). -/
def resolveComps (comps : List String) : List String :=
  comps.foldl
    (fun acc c =>
      if c = "" ∨ c = "." then acc
      else if c = ".." then acc.dropLast
      else acc ++ [c])
    []

/-- A tar member name parsed into path components. -/
def splitPath (name : String) : List String := splitStr '/' name

/-- `is_safe_member(member, dest)` inside `GitService.checkout_to_worktree`:
reject names starting with `/` or `\`, names containing `..`, and
members whose destination `(dest / name).resolve()` is not inside
`dest.resolve()`.  `dest` is the worktree directory as components. -/
def isSafeMember (dest : List String) (name : String) : Bool :=
  !(strStartsWith name "/") && !(strStartsWith name "\\")
    && !(containsSub name "..")
    && (resolveComps dest).isPrefixOf (resolveComps (dest ++ splitPath name))

/-- `safe_members = [m for m in tar.getmembers() if is_safe_member(m, worktree)]`;
only this filtered set is handed to `tar.extractall`. -/
def safeMembers (dest : List String) (members : List String) : List String :=
  members.filter (isSafeMember dest)

end GitService

/-! ## SSRF guard (backend/utils/security.py) -/

namespace Security

/-- Outcome of `socket.gethostbyname` plus `ipaddress.ip_address`
classification: resolution failure (`gaierror`), a classified address,
or a value `ip_address` cannot parse. -/
inductive DnsResult where
  | fail
  | addr (isPrivate isLoopback isReserved : Bool)
  | notIp
  deriving DecidableEq, Repr

/-- The relevant output of `urllib.parse.urlparse`: scheme and hostname
(`none` models a missing/falsy hostname). -/
structure ParsedUrl where
  scheme : String
  hostname : Option String
  deriving DecidableEq, Repr

/-- `ALLOWED_DOWNLOAD_HOSTS` from backend/utils/security.py. -/
def allowedDownloadHosts : List String :=
  ["github.com", "api.github.com", "raw.githubusercontent.com",
   "objects.githubusercontent.com", "github-releases.githubusercontent.com",
   "codeload.github.com"]

/-- `validate_download_url`: `Except.error` models a raised `ValueError`,
`Except.ok true` the successful return.  `dns` is the resolver oracle. -/
def validateDownloadUrl (dns : String → DnsResult) (u : ParsedUrl) :
    Except String Bool :=
  if u.scheme ≠ "https" then .error "Only HTTPS URLs are allowed"
  else
    match u.hostname with
    | none => .error "URL must have a valid hostname"
    | some h =>
        let hostname := pyLower h
        if hostname ∉ allowedDownloadHosts then
          .error "Download from this host is not allowed. Only GitHub domains are permitted."
        else
          match dns hostname with
          | .fail => .ok true
          | .notIp => .ok true
          | .addr p l r =>
              if p || l || r then
                .error "Download URL resolves to a private/internal IP address"
              else .ok true

end Security

/-! ## Response cache (backend/services/cache_service.py) -/

namespace CacheService

/-- A row of the `cache_entries` table (backend/models/cache.py);
`last_updated` in UTC seconds. -/
structure CacheEntryRow where
  username : String
  endpoint_type : String
  data : String
  last_updated : Int
  deriving DecidableEq, Repr

/-- The `select ... where username = u and endpoint_type = t` lookup
(`scalar_one_or_none`; the pair is unique in the store). -/
def findEntry (db : List CacheEntryRow) (username endpointType : String) :
    Option CacheEntryRow :=
  db.find? (fun e => e.username == username && e.endpoint_type == endpointType)

/-- `CacheService.get_cached`: a pure read — the function only issues a
SELECT, so the store it hands back is the store it was given.  The
entry is returned when present and `now - last_updated` does not exceed
`ttl_minutes` (comparison in seconds, as `timedelta(minutes=ttl)`). -/
def getCached (db : List CacheEntryRow) (username endpointType : String)
    (ttlMinutes : Int) (now : Int) : Option String × List CacheEntryRow :=
  match findEntry db username endpointType with
  | none => (none, db)
  | some entry =>
      if ttlMinutes * 60 < now - entry.last_updated then (none, db)
      else (some entry.data, db)

/-- `CacheService.set_cached`: upsert the `(username, endpoint_type)`
entry with fresh `last_updated`. -/
def setCached (db : List CacheEntryRow) (username endpointType data : String)
    (now : Int) : List CacheEntryRow :=
  match findEntry db username endpointType with
  | some _ =>
      db.map (fun e =>
        if e.username == username && e.endpoint_type == endpointType then
          { e with data := data, last_updated := now }
        else e)
  | none => db ++ [⟨username, endpointType, data, now⟩]

/-- `CacheService.cleanup_expired_cache`: delete every entry strictly
older than `now - ttl`, returning the deleted-row count. -/
def cleanupExpiredCache (db : List CacheEntryRow) (ttlMinutes now : Int) :
    Nat × List CacheEntryRow :=
  let cutoff := now - ttlMinutes * 60
  (db.countP (fun e => e.last_updated < cutoff),
   db.filter (fun e => ! (e.last_updated < cutoff : Bool)))

end CacheService

/-! ## Commit-count pagination trick (backend/services/github_service.py) -/

namespace GitHubService

/-- Decimal digit run to a number (`int(match.group(1))`). -/
def digitsToNat (cs : List Char) : Nat :=
  cs.foldl (fun n c => 10 * n + (c.toNat - 48)) 0

/-- The regex search `[?&]page=(\d+)`: first position where `?` or `&`
is followed by `page=` and at least one digit; the captured group is the
maximal digit run. -/
def findPageNum : List Char → Option Nat
  | [] => none
  | c :: rest =>
      if (c = '?' || c = '&') && "page=".data.isPrefixOf rest
          && (match rest.drop 5 with | d :: _ => d.isDigit | [] => false) then
        some (digitsToNat ((rest.drop 5).takeWhile Char.isDigit))
      else findPageNum rest

/-- The `for link in links` loop: the first comma-separated piece that
contains `rel="last"` and yields a page number. -/
def firstLastPage : List String → Option Nat
  | [] => none
  | l :: ls =>
      if containsSub l "rel=\"last\"" then
        match findPageNum l.data with
        | some n => some n
        | none => firstLastPage ls
      else firstLastPage ls

/-- `response.json()` as seen by `fetch_commit_count`: a list of some
length, a non-list document, or an unparsable body (raises). -/
inductive JsonBody where
  | list (n : Nat)
  | notList
  | invalid
  deriving DecidableEq, Repr

/-- The parts of the upstream commits response that
`fetch_commit_count` inspects (`headers.get("Link", "")` gives
`linkHeader.getD ""`). -/
structure CommitsResponse where
  status : Nat
  linkHeader : Option String
  body : JsonBody
  deriving DecidableEq, Repr

/-- `GitHubService.fetch_commit_count` on an obtained response: Link
`rel="last"` page number first, then list length, 0 on 409 and on every
other fallthrough (an unparsable body raises into the `except` that
returns 0). -/
def fetchCommitCount (resp : CommitsResponse) : Nat :=
  if resp.status = 200 then
    let lh := resp.linkHeader.getD ""
    let viaLink := if lh ≠ "" then firstLastPage (splitStr ',' lh) else none
    match viaLink with
    | some n => n
    | none =>
        match resp.body with
        | .list n => n
        | .notList => 0
        | .invalid => 0
  else if resp.status = 409 then 0
  else 0

end GitHubService

/-! ## Replay orchestrator (backend/services/server_service.py) -/

namespace ServerService

/-- What one `adapter.start(workspace, port, env)` call does: succeed,
raise `OSError` (port bind conflict), or raise any other exception. -/
inductive StartOutcome where
  | ok
  | osError (msg : String)
  | fatal (msg : String)
  deriving DecidableEq, Repr

/-- The environment of the retry loop in `start_server`:
`getPort attempt preferred` is `_get_next_available_port` (`Except.error`
models its `RuntimeError`), `adapterStart attempt port` the adapter
start call on that attempt. -/
structure StartEnv where
  getPort : Nat → Option Nat → Except String Nat
  adapterStart : Nat → Nat → StartOutcome

/-- Resulting instance state of the retry loop. -/
inductive StartResult where
  | running (port : Nat)
  | failed (error : String)
  deriving DecidableEq, Repr

/-- Observable trace of one `start_server` retry loop: the `preferred`
argument passed to the port allocator on each attempt, the backoff
sleeps in milliseconds, and the outcome. -/
structure RetryTrace where
  portCalls : List (Option Nat)
  sleeps : List Nat
  result : StartResult
  deriving DecidableEq, Repr

/-- `max_retries = 3` in `start_server`. -/
def maxRetries : Nat := 3

/-- The `for attempt in range(max_retries)` loop of `start_server`,
recursing on the remaining attempt budget.  Port allocation passes the
caller's preferred port only on attempt 0; a port `RuntimeError`
continues without sleeping; `OSError` from the adapter sleeps
`0.1 * 2 ** attempt` seconds when further attempts remain and retries;
any other exception fails the instance immediately; an exhausted budget
surfaces the last error. -/
def runStartLoop (env : StartEnv) (preferredPort : Option Nat) :
    Nat → Nat → Option String → RetryTrace
  | 0, _, lastError =>
      ⟨[], [],
       .failed ("Failed after " ++ toString maxRetries ++ " attempts: "
          ++ lastError.getD "None")⟩
  | remaining + 1, attempt, _ =>
      let pref := if attempt = 0 then preferredPort else none
      match env.getPort attempt pref with
      | .error msg =>
          let t := runStartLoop env preferredPort remaining (attempt + 1) (some msg)
          ⟨pref :: t.portCalls, t.sleeps, t.result⟩
      | .ok port =>
          match env.adapterStart attempt port with
          | .ok => ⟨[pref], [], .running port⟩
          | .osError msg =>
              let t := runStartLoop env preferredPort remaining (attempt + 1) (some msg)
              if attempt < maxRetries - 1 then
                ⟨pref :: t.portCalls, (100 * 2 ^ attempt) :: t.sleeps, t.result⟩
              else
                ⟨pref :: t.portCalls, t.sleeps, t.result⟩
          | .fatal msg => ⟨[pref], [], .failed msg⟩

/-- The retry portion of `ServerOrchestrator.start_server` (reached for
a fresh `(repo_id, commit_hash)` with a validated workspace). -/
def startServer (env : StartEnv) (preferredPort : Option Nat) : RetryTrace :=
  runStartLoop env preferredPort maxRetries 0 none

/-- The per-instance state tracked by the orchestrator registry that the
lifecycle operations consult. -/
structure ServerInstance where
  id : String
  repo_id : Int
  commit_hash : String
  status : String
  deriving DecidableEq, Repr

/-- `ServerOrchestrator.stop_server`: a missing id returns `False`;
otherwise the instance's status is set to `"stopped"` unconditionally
(the adapter stop call is only attempted while running) and `True` is
returned. -/
def stopServer (reg : List ServerInstance) (serverId : String) :
    Bool × List ServerInstance :=
  match reg.find? (fun i => i.id == serverId) with
  | none => (false, reg)
  | some _ =>
      (true, reg.map (fun i =>
        if i.id == serverId then { i with status := "stopped" } else i))

/-- `ServerOrchestrator.remove_server`: refuse for a missing id or a
running instance; otherwise delete the instance from the registry. -/
def removeServer (reg : List ServerInstance) (serverId : String) :
    Bool × List ServerInstance :=
  match reg.find? (fun i => i.id == serverId) with
  | none => (false, reg)
  | some inst =>
      if inst.status == "running" then (false, reg)
      else (true, reg.filter (fun i => ! (i.id == serverId)))

/-- The existing-instance branch at the top of
`ServerOrchestrator.start_server`: an instance for `(repo_id,
commit_hash)` that is running is returned as-is; otherwise it is
restarted in place, becoming `"running"` on adapter success and
`"failed"` on any exception.  `none` means no existing instance (the
fresh-instance path follows instead). -/
def startExisting (reg : List ServerInstance) (repoId : Int) (commitHash : String)
    (adapterResult : Except String Unit) : Option (List ServerInstance) :=
  match reg.find? (fun i => i.repo_id == repoId && i.commit_hash == commitHash) with
  | none => none
  | some inst =>
      if inst.status == "running" then some reg
      else
        some (reg.map (fun i =>
          if i.id == inst.id then
            { i with status := match adapterResult with
                               | .ok _ => "running"
                               | .error _ => "failed" }
          else i))

end ServerService

/-! ## Scoped env-var service (backend/services/env_service.py) -/

namespace EnvService

/-- A row of the `env_vars` table (backend/models/envvar.py). -/
structure EnvVarRow where
  key : String
  value : String
  scope : String
  repository_id : Option Int
  commit_hash : Option String
  deriving DecidableEq, Repr

/-- `EnvService._decrypt_value`: empty ciphertext decrypts to the empty
string; when decryption yields the empty string on a non-empty
ciphertext, the ciphertext is legacy unencrypted data and is returned
verbatim. -/
def decryptValue (fernetDec : String → Option String) (encryptedValue : String) : String :=
  if encryptedValue = "" then ""
  else
    let decrypted := Crypto.cryptoDecrypt fernetDec encryptedValue
    if decrypted = "" then encryptedValue else decrypted

/-- `EnvService._encrypt_value`: empty plaintext is stored as the empty
string, otherwise the Fernet primitive encrypts. -/
def encryptValue (fernetEnc : String → String) (plaintextValue : String) : String :=
  if plaintextValue = "" then "" else Crypto.cryptoEncrypt fernetEnc plaintextValue

/-- `EnvService.get_global_vars`: all rows with scope `global`, decrypted. -/
def getGlobalVars (fernetDec : String → Option String) (db : List EnvVarRow) :
    List (String × String) :=
  (db.filter (fun v => v.scope == "global")).map
    (fun v => (v.key, decryptValue fernetDec v.value))

/-- `EnvService.get_project_vars`: rows with scope `project` for the
given repository, decrypted. -/
def getProjectVars (fernetDec : String → Option String) (db : List EnvVarRow)
    (repoId : Int) : List (String × String) :=
  (db.filter (fun v => v.scope == "project" && v.repository_id == some repoId)).map
    (fun v => (v.key, decryptValue fernetDec v.value))

/-- `EnvService.get_commit_vars`: rows with scope `commit` for the given
repository and commit hash, decrypted. -/
def getCommitVars (fernetDec : String → Option String) (db : List EnvVarRow)
    (repoId : Int) (commitHash : String) : List (String × String) :=
  (db.filter (fun v =>
      v.scope == "commit" && v.repository_id == some repoId
        && v.commit_hash == some commitHash)).map
    (fun v => (v.key, decryptValue fernetDec v.value))

/-- `merged[key] = value`: a Python dict modelled extensionally as a
lookup function. -/
def dictInsert (m : String → Option String) (kv : String × String) :
    String → Option String :=
  fun k => if k = kv.1 then some kv.2 else m k

/-- `EnvService.get_merged_vars`: fold the three scopes into one dict,
global first, then project, then commit (later scopes overwrite). -/
def getMergedVars (fernetDec : String → Option String) (db : List EnvVarRow)
    (repoId : Int) (commitHash : String) : String → Option String :=
  let m0 := (getGlobalVars fernetDec db).foldl dictInsert (fun _ => none)
  let m1 := (getProjectVars fernetDec db repoId).foldl dictInsert m0
  (getCommitVars fernetDec db repoId commitHash).foldl dictInsert m1

/-- The delete condition of `EnvService.set_vars`: scope always matches;
`repository_id` and `commit_hash` are constrained only when the caller
supplied them. -/
def deleteCond (scope : String) (repoId : Option Int) (commitHash : Option String)
    (v : EnvVarRow) : Bool :=
  v.scope == scope
    && (match repoId with | none => true | some r => v.repository_id == some r)
    && (match commitHash with | none => true | some h => v.commit_hash == some h)

/-- `EnvService.set_vars`: delete every row matching the scope selector,
then insert the new rows with encrypted values. -/
def setVars (fernetEnc : String → String) (db : List EnvVarRow) (scope : String)
    (vars : List (String × String)) (repoId : Option Int) (commitHash : Option String) :
    List EnvVarRow :=
  db.filter (fun v => ! deleteCond scope repoId commitHash v)
    ++ vars.map (fun kv =>
        { key := kv.1, value := encryptValue fernetEnc kv.2, scope := scope,
          repository_id := repoId, commit_hash := commitHash })

/-- Modelled from the spec for the refinement direction of the merged
read: the value of the last binding of a key in a scope's pair list
(Python dict semantics keep the last write). -/
def lookupLast (l : List (String × String)) (k : String) : Option String :=
  (l.reverse.find? (fun kv => kv.1 == k)).map Prod.snd

/-- The concrete store of spec scenario 3: Global = {A=1, B=2},
Project(7) = {B=20, C=30}, Commit(7, abc1234) = {C=300, D=400}.  Values
are stored under an identity Fernet oracle. -/
def exampleStore : List EnvVarRow :=
  [⟨"A", "1", "global", none, none⟩,
   ⟨"B", "2", "global", none, none⟩,
   ⟨"B", "20", "project", some 7, none⟩,
   ⟨"C", "30", "project", some 7, none⟩,
   ⟨"C", "300", "commit", some 7, some "abc1234"⟩,
   ⟨"D", "400", "commit", some 7, some "abc1234"⟩]

end EnvService

end GitNexus

namespace GitNexus

open GitHubService TokenService Crypto

/-- C1: applying a rate-limit observation to the stored `ApiStatus` row
inserts it when no row exists; leaves all four stored fields unchanged
when the observed limit is below the stored one, the stored source is
authenticated (`env`/`db`/`authed`) and the observed source is `none`;
overwrites all four fields in every other case; and consequently the
stored `(limit, token_source)` pair never transitions from an
authenticated pair such as `(5000, authed|env|db)` to `(60, none)`. -/
theorem updateRateLimit_spec (tok : Option String) (l r e : Nat) :
    (updateRateLimit tok l r e none = some ⟨l, r, e, newSource tok l⟩)
    ∧ (∀ s : ApiStatus, l < s.limit → s.token_source ∈ authSources →
        newSource tok l = "none" →
        updateRateLimit tok l r e (some s) = some s)
    ∧ (∀ s : ApiStatus,
        ¬ (l < s.limit ∧ s.token_source ∈ authSources ∧ newSource tok l = "none") →
        updateRateLimit tok l r e (some s) = some ⟨l, r, e, newSource tok l⟩)
    ∧ (∀ s res : ApiStatus, s.limit = 5000 → s.token_source ∈ authSources →
        updateRateLimit tok l r e (some s) = some res →
        ¬ (res.limit = 60 ∧ res.token_source = "none")) := by
  have hnotnone : ∀ x ∈ authSources, x ≠ "none" := by decide
  refine ⟨rfl, ?_, ?_, ?_⟩
  · intro s h1 h2 h3
    simp only [updateRateLimit]
    rw [if_pos ⟨h1, h2, h3⟩]
  · intro s hneg
    simp only [updateRateLimit]
    rw [if_neg hneg]
  · intro s res hlim hsrc hupd hbad
    simp only [updateRateLimit] at hupd
    by_cases hc : l < s.limit ∧ s.token_source ∈ authSources ∧ newSource tok l = "none"
    · rw [if_pos hc] at hupd
      have hres : res = s := (Option.some_inj.mp hupd).symm
      exact hnotnone s.token_source hsrc (by rw [← hres]; exact hbad.2)
    · rw [if_neg hc] at hupd
      have hres : res = ⟨l, r, e, newSource tok l⟩ := (Option.some_inj.mp hupd).symm
      apply hc
      refine ⟨?_, hsrc, ?_⟩
      · have : l = 60 := by rw [hres] at hbad; exact hbad.1
        omega
      · rw [hres] at hbad; exact hbad.2

/-- Witness for `updateRateLimit_spec`: the stored authenticated snapshot
`(5000, 4800, 0, db)` survives the unauthenticated observation
`(60, 59, 0)` untouched. -/
theorem updateRateLimit_spec_witness :
    updateRateLimit none 60 59 0 (some ⟨5000, 4800, 0, "db"⟩) =
      some ⟨5000, 4800, 0, "db"⟩ :=
  (updateRateLimit_spec none 60 59 0).2.1 ⟨5000, 4800, 0, "db"⟩
    (by decide) (by decide) (by decide)

/-- C3: `get_effective_token` resolves in strict priority order — a
request token that is non-empty after trimming wins with source
`request`; else a configured environment token wins with source `env`;
else a stored `github_token` ciphertext that decrypts to a non-empty
string wins with source `db`; in every other case (no row, empty
ciphertext, or decryption failure) the result is `(none, "none")`
without raising (the embedding is a total function). -/
theorem getEffectiveToken_spec (envTok : Option String) (db : List AppConfigRow)
    (dec : String → Option String) (rt : Option String) :
    (∀ t : String, rt = some t → pyStrip t ≠ "" →
        getEffectiveToken envTok db dec rt = (some (pyStrip t), "request"))
    ∧ (pyStrip (rt.getD "") = "" → ∀ e : String, envTok = some e → e ≠ "" →
        getEffectiveToken envTok db dec rt = (some e, "env"))
    ∧ (pyStrip (rt.getD "") = "" → envTok.getD "" = "" →
        ∀ c : AppConfigRow, db.find? (fun c => c.key == "github_token") = some c →
        cryptoDecrypt dec c.value ≠ "" →
        getEffectiveToken envTok db dec rt = (some (cryptoDecrypt dec c.value), "db"))
    ∧ (pyStrip (rt.getD "") = "" → envTok.getD "" = "" →
        (∀ c : AppConfigRow, db.find? (fun c => c.key == "github_token") = some c →
          cryptoDecrypt dec c.value = "") →
        getEffectiveToken envTok db dec rt = (none, "none")) := by
  refine ⟨?_, ?_, ?_, ?_⟩
  · intro t ht htrim
    subst ht
    simp only [getEffectiveToken, Option.getD_some]
    rw [if_pos ⟨fun h => htrim (by rw [h]; rfl), htrim⟩]
  · intro htrim e he hne
    subst he
    simp only [getEffectiveToken, Option.getD_some] at htrim ⊢
    rw [if_neg (fun h => h.2 htrim), if_pos hne]
  · intro htrim henv c hc hdec
    have hval : c.value ≠ "" := by
      intro hv
      apply hdec
      rw [hv]
      rfl
    simp only [getEffectiveToken, hc]
    rw [if_neg (fun h => h.2 htrim), if_neg (by rw [henv]; simp)]
    simp only [ne_eq, hval, not_false_eq_true, if_true, hdec, if_pos]
  · intro htrim henv hall
    simp only [getEffectiveToken]
    rw [if_neg (fun h => h.2 htrim), if_neg (by rw [henv]; simp)]
    cases hfind : db.find? (fun c => c.key == "github_token") with
    | none => rfl
    | some c =>
        by_cases hval : c.value = ""
        · simp only [ne_eq, hval, not_true_eq_false, if_false]
        · simp only [ne_eq, hval, not_false_eq_true, if_true, hall c hfind,
            not_true_eq_false, if_false]

/-- Witness for `getEffectiveToken_spec`: with no request token and a
configured environment token, the result is the env token with source
`env`. -/
theorem getEffectiveToken_spec_witness :
    getEffectiveToken (some "envtok") [] (fun _ => none) none =
      (some "envtok", "env") :=
  (getEffectiveToken_spec (some "envtok") [] (fun _ => none) none).2.1
    rfl "envtok" rfl (by decide)

namespace EnvService

/-- Folding dict insertion over a pair list looks up the last binding of
the key, falling back to the initial dict. -/
theorem foldl_dictInsert_eq (l : List (String × String)) (m : String → Option String)
    (k : String) :
    (l.foldl dictInsert m) k = (lookupLast l k).or (m k) := by
  induction l generalizing m with
  | nil => rfl
  | cons kv rest ih =>
      rw [List.foldl_cons, ih (dictInsert m kv)]
      unfold lookupLast
      rw [List.reverse_cons, List.find?_append]
      cases hf : rest.reverse.find? (fun x => x.1 == k) with
      | some x => simp [lookupLast, hf, Option.or]
      | none =>
          simp only [lookupLast, hf, Option.map_none, Option.none_or, Option.or_none]
          unfold dictInsert
          by_cases hk : k = kv.1
          · simp [List.find?, hk]
          · have : (kv.1 == k) = false := by
              simp [BEq.beq]
              exact fun hx => hk hx.symm
            simp [List.find?, this, hk]

/-- Round-trip of the env-var value encoding under the Fernet contract. -/
theorem decryptValue_encryptValue (fernetEnc : String → String)
    (fernetDec : String → Option String)
    (hdec : ∀ s : String, s ≠ "" → fernetDec (fernetEnc s) = some s)
    (henc : ∀ s : String, s ≠ "" → fernetEnc s ≠ "") (x : String) :
    decryptValue fernetDec (encryptValue fernetEnc x) = x := by
  by_cases hx : x = ""
  · subst hx; rfl
  · unfold encryptValue decryptValue Crypto.cryptoEncrypt Crypto.cryptoDecrypt
    rw [if_neg hx, if_neg hx, if_neg (henc x hx), if_neg (henc x hx), hdec x hx]
    simp [hx]

end EnvService

open EnvService

/-- C4: `get_merged_vars(r, c)` maps each key to the decrypted
commit-scoped value if one exists, else the project-scoped value if one
exists, else the global value, and a key in no scope is absent; on the
concrete store Global = {A=1, B=2}, Project(7) = {B=20, C=30},
Commit(7, abc1234) = {C=300, D=400} the merged map is
{A:1, B:20, C:300, D:400}. -/
theorem getMergedVars_spec (fernetDec : String → Option String) (db : List EnvVarRow)
    (r : Int) (c : String) (k : String) :
    (getMergedVars fernetDec db r c k =
      ((lookupLast (getCommitVars fernetDec db r c) k).or
        ((lookupLast (getProjectVars fernetDec db r) k).or
          (lookupLast (getGlobalVars fernetDec db) k))))
    ∧ (getMergedVars (fun s => some s) exampleStore 7 "abc1234" "A" = some "1"
      ∧ getMergedVars (fun s => some s) exampleStore 7 "abc1234" "B" = some "20"
      ∧ getMergedVars (fun s => some s) exampleStore 7 "abc1234" "C" = some "300"
      ∧ getMergedVars (fun s => some s) exampleStore 7 "abc1234" "D" = some "400"
      ∧ getMergedVars (fun s => some s) exampleStore 7 "abc1234" "E" = none) := by
  constructor
  · unfold getMergedVars
    rw [foldl_dictInsert_eq, foldl_dictInsert_eq, foldl_dictInsert_eq, Option.or_none]
  · exact ⟨rfl, rfl, rfl, rfl, rfl⟩

/-- C7: after `set_vars` on a scope selector, reading the same scope with
the same `repo_id`/`commit_hash` returns exactly the written pairs with
values decrypted back to the original plaintext, and nothing else;
previously stored rows for that selector are gone.  `hdec`/`henc` are
the contract of the external Fernet primitive. -/
theorem setVars_roundtrip
    (fernetEnc : String → String) (fernetDec : String → Option String)
    (hdec : ∀ s : String, s ≠ "" → fernetDec (fernetEnc s) = some s)
    (henc : ∀ s : String, s ≠ "" → fernetEnc s ≠ "")
    (db : List EnvVarRow) (vs : List (String × String)) (r : Int) (h : String) :
    getGlobalVars fernetDec (setVars fernetEnc db "global" vs none none) = vs
    ∧ getProjectVars fernetDec (setVars fernetEnc db "project" vs (some r) none) r = vs
    ∧ getCommitVars fernetDec (setVars fernetEnc db "commit" vs (some r) (some h)) r h
        = vs := by
  have hrt : ∀ kv : String × String,
      (kv.1, decryptValue fernetDec (encryptValue fernetEnc kv.2)) = kv := by
    intro kv
    rw [decryptValue_encryptValue fernetEnc fernetDec hdec henc]
  have hmap : ∀ (mk : String × String → EnvVarRow),
      (∀ kv, (mk kv).key = kv.1) → (∀ kv, (mk kv).value = encryptValue fernetEnc kv.2) →
      (vs.map mk).map (fun v => (v.key, decryptValue fernetDec v.value)) = vs := by
    intro mk hk hv
    rw [List.map_map]
    induction vs with
    | nil => rfl
    | cons kv rest ih =>
        simp only [List.map_cons, Function.comp, hk, hv, hrt kv, ih]
  refine ⟨?_, ?_, ?_⟩
  · unfold getGlobalVars setVars
    rw [List.filter_append]
    have h1 : (db.filter (fun v => ! deleteCond "global" none none v)).filter
        (fun v => v.scope == "global") = [] := by
      rw [List.filter_eq_nil_iff]
      intro v hv hp
      rw [List.mem_filter] at hv
      have : deleteCond "global" none none v = true := by
        simp [deleteCond, hp]
      simp [this] at hv
    rw [h1, List.nil_append]
    have h2 : ((vs.map (fun kv =>
        ({ key := kv.1, value := encryptValue fernetEnc kv.2, scope := "global",
           repository_id := none, commit_hash := none } : EnvVarRow))).filter
        (fun v => v.scope == "global")) = vs.map (fun kv =>
        ({ key := kv.1, value := encryptValue fernetEnc kv.2, scope := "global",
           repository_id := none, commit_hash := none } : EnvVarRow)) := by
      apply List.filter_eq_self.mpr
      intro a ha
      rw [List.mem_map] at ha
      obtain ⟨kv, _, hkv⟩ := ha
      rw [← hkv]
      rfl
    rw [h2]
    exact hmap _ (fun _ => rfl) (fun _ => rfl)
  · unfold getProjectVars setVars
    rw [List.filter_append]
    have h1 : (db.filter (fun v => ! deleteCond "project" (some r) none v)).filter
        (fun v => v.scope == "project" && v.repository_id == some r) = [] := by
      rw [List.filter_eq_nil_iff]
      intro v hv hp
      rw [List.mem_filter] at hv
      have : deleteCond "project" (some r) none v = true := by
        simp only [deleteCond, Bool.and_true]
        simp only [Bool.and_eq_true] at hp
        simp [hp.1, hp.2]
      simp [this] at hv
    rw [h1, List.nil_append]
    have h2 : ((vs.map (fun kv =>
        ({ key := kv.1, value := encryptValue fernetEnc kv.2, scope := "project",
           repository_id := some r, commit_hash := none } : EnvVarRow))).filter
        (fun v => v.scope == "project" && v.repository_id == some r)) = vs.map (fun kv =>
        ({ key := kv.1, value := encryptValue fernetEnc kv.2, scope := "project",
           repository_id := some r, commit_hash := none } : EnvVarRow)) := by
      apply List.filter_eq_self.mpr
      intro a ha
      rw [List.mem_map] at ha
      obtain ⟨kv, _, hkv⟩ := ha
      rw [← hkv]
      simp
    rw [h2]
    exact hmap _ (fun _ => rfl) (fun _ => rfl)
  · unfold getCommitVars setVars
    rw [List.filter_append]
    have h1 : (db.filter (fun v => ! deleteCond "commit" (some r) (some h) v)).filter
        (fun v => v.scope == "commit" && v.repository_id == some r
          && v.commit_hash == some h) = [] := by
      rw [List.filter_eq_nil_iff]
      intro v hv hp
      rw [List.mem_filter] at hv
      have : deleteCond "commit" (some r) (some h) v = true := by
        simp only [deleteCond]
        simp only [Bool.and_eq_true] at hp
        simp [hp.1.1, hp.1.2, hp.2]
      simp [this] at hv
    rw [h1, List.nil_append]
    have h2 : ((vs.map (fun kv =>
        ({ key := kv.1, value := encryptValue fernetEnc kv.2, scope := "commit",
           repository_id := some r, commit_hash := some h } : EnvVarRow))).filter
        (fun v => v.scope == "commit" && v.repository_id == some r
          && v.commit_hash == some h)) = vs.map (fun kv =>
        ({ key := kv.1, value := encryptValue fernetEnc kv.2, scope := "commit",
           repository_id := some r, commit_hash := some h } : EnvVarRow)) := by
      apply List.filter_eq_self.mpr
      intro a ha
      rw [List.mem_map] at ha
      obtain ⟨kv, _, hkv⟩ := ha
      rw [← hkv]
      simp
    rw [h2]
    exact hmap _ (fun _ => rfl) (fun _ => rfl)

/-- Witness for `setVars_roundtrip`: writing `{B=20, C=""}` at project
scope for repo 7 over a store holding an old project row replaces it,
and reading the project scope returns exactly the written pairs. -/
theorem setVars_roundtrip_witness :
    getProjectVars (fun s => some s)
      (setVars (fun s => s) [⟨"OLD", "x", "project", some 7, none⟩] "project"
        [("B", "20"), ("C", "")] (some 7) none) 7 = [("B", "20"), ("C", "")] :=
  (setVars_roundtrip (fun s => s) (fun s => some s) (fun _ _ => rfl) (fun _ hx => hx)
    [⟨"OLD", "x", "project", some 7, none⟩] [("B", "20"), ("C", "")] 7 "h").2.1

open GitService Security CacheService ServerService

/-- C2: a tar member is extracted by the git-archive fallback only if its
name does not begin with `/` or `\`, does not contain `..`, and its
destination resolved against the target directory stays inside the
target directory; members failing any check are filtered out before
extraction, so every member the fallback extracts has its resolved
destination under the target directory. -/
theorem safeMembers_spec (dest : List String) (members : List String) (m : String) :
    (m ∈ safeMembers dest members ↔
      (m ∈ members ∧ strStartsWith m "/" = false ∧ strStartsWith m "\\" = false
        ∧ containsSub m ".." = false
        ∧ (resolveComps dest).isPrefixOf (resolveComps (dest ++ splitPath m)) = true))
    ∧ (m ∈ safeMembers dest members →
        resolveComps dest <+: resolveComps (dest ++ splitPath m)) := by
  have hiff : m ∈ safeMembers dest members ↔
      (m ∈ members ∧ strStartsWith m "/" = false ∧ strStartsWith m "\\" = false
        ∧ containsSub m ".." = false
        ∧ (resolveComps dest).isPrefixOf (resolveComps (dest ++ splitPath m)) = true) := by
    unfold safeMembers isSafeMember
    rw [List.mem_filter]
    simp only [Bool.and_eq_true, Bool.not_eq_true']
    tauto
  refine ⟨hiff, fun hm => ?_⟩
  have h := (hiff.mp hm).2.2.2.2
  exact List.isPrefixOf_iff_prefix.mp h

/-- Witness for `safeMembers_spec`: `a/b.txt` survives the filter of a
member list that also holds a traversal name and an absolute name, and
its resolved destination stays under the target directory. -/
theorem safeMembers_spec_witness :
    resolveComps ["home", "ws", "wt"] <+:
      resolveComps (["home", "ws", "wt"] ++ splitPath "a/b.txt") :=
  (safeMembers_spec ["home", "ws", "wt"]
    ["a/b.txt", "../../etc/passwd", "/abs.txt"] "a/b.txt").2 (by decide)

/-- C9: `validate_download_url` raises exactly when the scheme is not
`https`, or the hostname is absent or outside the GitHub allow-list, or
the hostname resolves to a private/loopback/reserved address; a DNS
resolution failure on an allow-listed https URL is permitted and the
function returns `True`; `http://evil.example/payload.bin` raises and an
allow-listed https URL resolving publicly passes. -/
theorem validateDownloadUrl_spec (dns : String → DnsResult) (u : ParsedUrl) :
    ((∃ msg, validateDownloadUrl dns u = .error msg) ↔
      (u.scheme ≠ "https" ∨ u.hostname = none
        ∨ (∃ h, u.hostname = some h ∧ pyLower h ∉ allowedDownloadHosts)
        ∨ (∃ h p l r, u.hostname = some h ∧ pyLower h ∈ allowedDownloadHosts
            ∧ dns (pyLower h) = .addr p l r ∧ (p || l || r) = true)))
    ∧ (∀ h, u.scheme = "https" → u.hostname = some h →
        pyLower h ∈ allowedDownloadHosts → dns (pyLower h) = .fail →
        validateDownloadUrl dns u = .ok true)
    ∧ (validateDownloadUrl dns ⟨"http", some "evil.example"⟩ =
        .error "Only HTTPS URLs are allowed")
    ∧ (validateDownloadUrl (fun _ => .addr false false false)
        ⟨"https", some "objects.githubusercontent.com"⟩ = .ok true) := by
  refine ⟨?_, ?_, ?_, ?_⟩
  · by_cases hs : u.scheme = "https"
    · cases hh : u.hostname with
      | none => simp [validateDownloadUrl, hs, hh]
      | some h =>
          by_cases hm : pyLower h ∈ allowedDownloadHosts
          · cases hd : dns (pyLower h) with
            | fail => simp [validateDownloadUrl, hs, hh, hm, hd]
            | notIp => simp [validateDownloadUrl, hs, hh, hm, hd]
            | addr p l r =>
                cases p <;> cases l <;> cases r <;>
                  simp [validateDownloadUrl, hs, hh, hm, hd]
          · simp [validateDownloadUrl, hs, hh, hm]
    · simp [validateDownloadUrl, hs]
  · intro h hs hh hm hd
    simp [validateDownloadUrl, hs, hh, hm, hd]
  · rfl
  · rfl

/-- Witness for `validateDownloadUrl_spec`: DNS failure on an
allow-listed https host is permitted. -/
theorem validateDownloadUrl_spec_witness :
    validateDownloadUrl (fun _ => DnsResult.fail)
      ⟨"https", some "github.com"⟩ = .ok true :=
  (validateDownloadUrl_spec (fun _ => DnsResult.fail)
    ⟨"https", some "github.com"⟩).2.1 "github.com" rfl rfl (by decide) rfl

/-- C10: `get_cached` never modifies the store: the state it hands back
is its input state for every argument; it returns `none` when the entry
is missing or when `now - last_updated` exceeds the TTL, yet the stored
entry (expired or not) remains in place, so the same stale entry is
still readable by a later `get_cached` with a larger TTL. -/
theorem getCached_frame (db : List CacheEntryRow) (u ep : String) (ttl now : Int) :
    ((getCached db u ep ttl now).2 = db)
    ∧ (findEntry db u ep = none → (getCached db u ep ttl now).1 = none)
    ∧ (∀ e, findEntry db u ep = some e → ttl * 60 < now - e.last_updated →
        (getCached db u ep ttl now).1 = none)
    ∧ (∀ e ttl2, findEntry db u ep = some e → now - e.last_updated ≤ ttl2 * 60 →
        (getCached db u ep ttl2 now).1 = some e.data) := by
  refine ⟨?_, ?_, ?_, ?_⟩
  · unfold getCached
    cases h : findEntry db u ep with
    | none => rfl
    | some e =>
        dsimp only
        split
        · rfl
        · rfl
  · intro h
    unfold getCached
    rw [h]
  · intro e h hstale
    unfold getCached
    rw [h]
    dsimp only
    rw [if_pos hstale]
  · intro e ttl2 h hfresh
    unfold getCached
    rw [h]
    dsimp only
    rw [if_neg (by omega)]

/-- Witness for `getCached_frame`: an entry 120 s old misses with
`ttl_minutes = 1`, stays in the store untouched, and is still read back
by a later `get_cached` with `ttl_minutes = 60`. -/
theorem getCached_frame_witness :
    ((getCached [⟨"u", "profile", "D", 0⟩] "u" "profile" 1 120).1 = none)
    ∧ ((getCached [⟨"u", "profile", "D", 0⟩] "u" "profile" 1 120).2
        = [⟨"u", "profile", "D", 0⟩])
    ∧ ((getCached [⟨"u", "profile", "D", 0⟩] "u" "profile" 60 120).1 = some "D") :=
  ⟨(getCached_frame [⟨"u", "profile", "D", 0⟩] "u" "profile" 1 120).2.2.1
      ⟨"u", "profile", "D", 0⟩ (by decide) (by decide),
   (getCached_frame [⟨"u", "profile", "D", 0⟩] "u" "profile" 1 120).1,
   (getCached_frame [⟨"u", "profile", "D", 0⟩] "u" "profile" 60 120).2.2.2
      ⟨"u", "profile", "D", 0⟩ 60 (by decide) (by decide)⟩

/-- C6: `fetch_commit_count` returns the page number of the
`rel="last"` Link entry on HTTP 200 when one parses; otherwise on 200 it
returns the length of a list body; HTTP 409 (empty repository) returns
0; a missing Link header with an unparsable (empty) body returns 0; and
the concrete Link header `...?per_page=1&page=42>; rel="last"` yields
42. -/
theorem fetchCommitCount_spec (resp : CommitsResponse) :
    (∀ n, resp.status = 200 →
        firstLastPage (splitStr ',' (resp.linkHeader.getD "")) = some n →
        fetchCommitCount resp = n)
    ∧ (∀ n, resp.status = 200 →
        firstLastPage (splitStr ',' (resp.linkHeader.getD "")) = none →
        resp.body = .list n → fetchCommitCount resp = n)
    ∧ (resp.status = 409 → fetchCommitCount resp = 0)
    ∧ (resp.status = 200 → resp.linkHeader = none → resp.body = .invalid →
        fetchCommitCount resp = 0)
    ∧ fetchCommitCount
        ⟨200,
         some "<https://api.github.com/repositories/1/commits?per_page=1&page=42>; rel=\"last\"",
         .list 1⟩ = 42 := by
  refine ⟨?_, ?_, ?_, ?_, ?_⟩
  · intro n h200 hpl
    by_cases hlh : resp.linkHeader.getD "" = ""
    · rw [hlh] at hpl
      have hz : firstLastPage (splitStr ',' "") = none := rfl
      rw [hz] at hpl
      exact Option.noConfusion hpl
    · simp [fetchCommitCount, h200, hlh, hpl]
  · intro n h200 hpl hbody
    by_cases hlh : resp.linkHeader.getD "" = ""
    · simp [fetchCommitCount, h200, hlh, hbody]
    · simp [fetchCommitCount, h200, hlh, hpl, hbody]
  · intro h409
    have : resp.status ≠ 200 := by omega
    simp [fetchCommitCount, h409, this]
  · intro h200 hlink hbody
    simp [fetchCommitCount, h200, hlink, hbody]
  · rfl

/-- Witness for `fetchCommitCount_spec`: an upstream 409 (empty
repository) yields a commit count of 0. -/
theorem fetchCommitCount_spec_witness :
    fetchCommitCount ⟨409, none, JsonBody.invalid⟩ = 0 :=
  (fetchCommitCount_spec ⟨409, none, JsonBody.invalid⟩).2.2.1 rfl

/-- C5 (amended): `start_server` performs exactly three start attempts
before surfacing failure; attempts 2 and 3 ignore any caller-supplied
preferred port; an OS-level port-bind failure is retryable while any
other exception terminates immediately with a failed instance; the
backoff delays slept between consecutive attempts are 100 ms and then
200 ms (100 ms × 2^(attempt-1) after failed attempts 1 and 2); no sleep
follows the final attempt, so a 400 ms delay is never slept. -/
theorem startServer_retry_spec (env : StartEnv) (p : Option Nat)
    (ports : Nat → Nat) (msgs : Nat → String) :
    ((∀ a pref, env.getPort a pref = .ok (ports a)) →
      (∀ a pt, env.adapterStart a pt = .osError (msgs a)) →
      ((startServer env p).portCalls = [p, none, none]
        ∧ (startServer env p).sleeps = [100, 200]
        ∧ (startServer env p).result =
            .failed ("Failed after " ++ toString maxRetries ++ " attempts: " ++ msgs 2)))
    ∧ (∀ pt msg, env.getPort 0 p = .ok pt → env.adapterStart 0 pt = .fatal msg →
        startServer env p = ⟨[p], [], .failed msg⟩)
    ∧ (∀ pt, env.getPort 0 p = .ok pt → env.adapterStart 0 pt = .ok →
        startServer env p = ⟨[p], [], .running pt⟩) := by
  refine ⟨?_, ?_, ?_⟩
  · intro hport hstart
    have hrun : startServer env p =
        ⟨[p, none, none], [100, 200],
         .failed ("Failed after " ++ toString maxRetries ++ " attempts: " ++ msgs 2)⟩ := by
      simp [startServer, runStartLoop, hport, hstart, maxRetries]
    rw [hrun]
    exact ⟨rfl, rfl, rfl⟩
  · intro pt msg hport hstart
    simp [startServer, runStartLoop, hport, hstart]
  · intro pt hport hstart
    simp [startServer, runStartLoop, hport, hstart]

/-- Counterexample for C5 as stated: when every attempt fails with a
port-bind `OSError`, the delays actually slept are 100 ms and 200 ms —
the claimed third delay of 400 ms is never slept, because no sleep
follows the final attempt. -/
theorem startServer_sleeps_counterexample :
    ((startServer ⟨fun a _ => .ok (9000 + a), fun _ _ => .osError "bind"⟩
        (some 9000)).sleeps = [100, 200])
    ∧ ([100, 200] ≠ ([100, 200, 400] : List Nat)) :=
  ⟨rfl, by decide⟩

/-- Witness for `startServer_retry_spec`: a run whose three attempts all
hit port-bind errors passes the preferred port only on the first
attempt. -/
theorem startServer_retry_spec_witness :
    (startServer ⟨fun a _ => .ok (8000 + a), fun _ _ => .osError "conflict"⟩
        (some 7777)).portCalls = [some 7777, none, none] :=
  ((startServer_retry_spec
      ⟨fun a _ => .ok (8000 + a), fun _ _ => .osError "conflict"⟩
      (some 7777) (fun a => 8000 + a) (fun _ => "conflict")).1
    (fun _ _ => rfl) (fun _ _ => rfl)).1

/-- C8 (amended): `stop_server` sets the status of any tracked instance
to `stopped` — it transitions a running instance to `stopped`, and it
also re-marks a `failed` instance as `stopped`; `start_server` can
return an existing non-running (stopped or failed) instance to
`running`, so `failed` and `stopped` are not terminal; `remove_server`
succeeds exactly for tracked instances whose status is not `running`
(in particular `failed` and `stopped` ones) and refuses while the
instance is running. -/
theorem serverLifecycle_spec (reg : List ServerInstance) (sid : String) :
    (∀ inst, reg.find? (fun i => i.id == sid) = some inst →
      ((stopServer reg sid).1 = true
        ∧ ∀ j ∈ (stopServer reg sid).2, j.id = sid → j.status = "stopped"))
    ∧ (∀ inst, reg.find? (fun i => i.id == sid) = some inst →
        inst.status ≠ "running" → (removeServer reg sid).1 = true)
    ∧ (∀ inst, reg.find? (fun i => i.id == sid) = some inst →
        inst.status = "running" → removeServer reg sid = (false, reg))
    ∧ (reg.find? (fun i => i.id == sid) = none →
        stopServer reg sid = (false, reg) ∧ removeServer reg sid = (false, reg))
    ∧ (∀ repoId ch inst,
        reg.find? (fun i => i.repo_id == repoId && i.commit_hash == ch) = some inst →
        inst.status = "running" → startExisting reg repoId ch (.ok ()) = some reg)
    ∧ (∀ repoId ch inst res,
        reg.find? (fun i => i.repo_id == repoId && i.commit_hash == ch) = some inst →
        inst.status ≠ "running" → startExisting reg repoId ch (.ok ()) = some res →
        ∀ j ∈ res, j.id = inst.id → j.status = "running") := by
  refine ⟨?_, ?_, ?_, ?_, ?_, ?_⟩
  · intro inst hfind
    constructor
    · simp only [stopServer, hfind]
    · intro j hj hjid
      simp only [stopServer, hfind] at hj
      rw [List.mem_map] at hj
      obtain ⟨i, _, hji⟩ := hj
      by_cases hid : (i.id == sid) = true
      · rw [if_pos hid] at hji
        rw [← hji]
      · rw [if_neg hid] at hji
        exfalso
        apply hid
        rw [beq_iff_eq, hji]
        exact hjid
  · intro inst hfind hst
    simp only [removeServer, hfind]
    rw [if_neg (by rw [beq_iff_eq]; exact hst)]
  · intro inst hfind hst
    simp only [removeServer, hfind]
    rw [if_pos (by rw [beq_iff_eq]; exact hst)]
  · intro hfind
    exact ⟨by simp only [stopServer, hfind], by simp only [removeServer, hfind]⟩
  · intro repoId ch inst hfind hst
    simp only [startExisting, hfind]
    rw [if_pos (by rw [beq_iff_eq]; exact hst)]
  · intro repoId ch inst res hfind hst hres j hj hjid
    simp only [startExisting, hfind] at hres
    rw [if_neg (by rw [beq_iff_eq]; exact hst)] at hres
    have hres' : res = reg.map (fun i =>
        if i.id == inst.id then { i with status := "running" } else i) :=
      (Option.some_inj.mp hres).symm
    rw [hres', List.mem_map] at hj
    obtain ⟨i, _, hji⟩ := hj
    by_cases hid : (i.id == inst.id) = true
    · rw [if_pos hid] at hji
      rw [← hji]
    · rw [if_neg hid] at hji
      exfalso
      apply hid
      rw [beq_iff_eq, hji]
      exact hjid

/-- Counterexample for C8 as stated: `stop_server` on an instance whose
status is `failed` changes its status to `stopped` (and reports
success), so `failed` is not terminal under orchestrator operations. -/
theorem stopServer_failed_counterexample :
    stopServer [⟨"s1", 1, "abc", "failed"⟩] "s1"
        = (true, [⟨"s1", 1, "abc", "stopped"⟩])
    ∧ ("stopped" : String) ≠ "failed" :=
  ⟨by decide, by decide⟩

/-- Witness for `serverLifecycle_spec`: `remove_server` succeeds on a
`failed` instance. -/
theorem serverLifecycle_spec_witness :
    (removeServer [⟨"s1", 1, "abc", "failed"⟩] "s1").1 = true :=
  (serverLifecycle_spec [⟨"s1", 1, "abc", "failed"⟩] "s1").2.1
    ⟨"s1", 1, "abc", "failed"⟩ (by decide) (by decide)

end GitNexus
